import Mathlib

/-!
Verification development for the markdown translator pipeline.

The development shallowly embeds the three source files of the repository:
`src/status.ts` (status variants and their one-line rendering),
`src/index.ts` and `src/unnamed/part_000` (the two orchestrator variants,
`translateMultiple` / `translateOne`).  The helper module `md-utils`
(`replaceCodeBlocks`, `restoreCodeBlocks`, `splitStringAtBlankLines`) is not
part of the available sources and is modelled from the specification.

Machine strings are embedded as `String` / `List Char`; the fallible
translation collaborator is an oracle function; the cooperative concurrency
of `Promise.all` is embedded by computing each fragment's outcome with the
pure oracle and collecting results positionally, with completion-order
independence stated through an explicit completion-event model
(`assembleByIndex`).  Recursion of the retry-split loop is made total with
an explicit fuel parameter; exhausting the fuel yields the distinguished
error `fuelExhausted`, which no claim relies on.
-/

/-! ## Status (`src/status.ts`) -/

/-- The declared `Status` union of `src/status.ts`: `pending(lastToken)`,
`done(translation)`, `error(message)`. -/
inductive Status where
  | pending (lastToken : String)
  | done (translation : String)
  | error (message : String)
deriving DecidableEq, Repr

/-- Embedding of `status.lastToken.replace(/\n/g, ' ')`: every newline
replaced by a space. -/
def flattenNewlines (s : String) : String :=
  ⟨s.data.map (fun c => if c = '\n' then ' ' else c)⟩

/-- Embedding of `statusToText` from `src/status.ts` lines 6-16, on the
declared variants. -/
def statusToText (status : Status) : String :=
  match status with
  | Status.pending lastToken =>
      if lastToken.length = 0 then "⏳" else "⚡ " ++ flattenNewlines lastToken
  | Status.done _ => "✅"
  | Status.error message => "❌ " ++ message

/-- Runtime status values.  Besides the three declared `Status` variants this
type has `waiting`, embedding the out-of-type object literal
`{ status: 'waiting' }` that `src/index.ts` (lines 51-53 and 87) stores in
the slot array and emits through `onStatus`. -/
inductive RuntimeStatus where
  | pending (lastToken : String)
  | done (translation : String)
  | error (message : String)
  | waiting
deriving DecidableEq, Repr

/-- Whether a runtime status value inhabits the declared `Status` union of
`src/status.ts` (false exactly for the `waiting` literal of
`src/index.ts`). -/
def isDeclaredStatus : RuntimeStatus → Bool
  | RuntimeStatus.waiting => false
  | _ => true

/-- Whether a runtime status is the `done` variant. -/
def isDoneStatus : RuntimeStatus → Bool
  | RuntimeStatus.done _ => true
  | _ => false

/-- Runtime behaviour of `statusToText` on runtime values: on the three
declared variants it returns the declared rendering; on the `waiting`
literal the `switch` of `src/status.ts` takes no branch and the JavaScript
function returns `undefined`, embedded as `none`. -/
def statusToTextR : RuntimeStatus → Option String
  | RuntimeStatus.pending t => some (statusToText (Status.pending t))
  | RuntimeStatus.done t => some (statusToText (Status.done t))
  | RuntimeStatus.error m => some (statusToText (Status.error m))
  | RuntimeStatus.waiting => none

/-! ## CodeBlockShield (`md-utils`, modelled from the spec) -/

/-- The backquote character of a markdown fence, written via its code point. -/
def backquote : Char := Char.ofNat 96

/-- A fence delimiter: three backquotes. -/
def fenceL : List Char := [backquote, backquote, backquote]

/-- A segment of a document: either prose or one fenced code region
(stored verbatim, fences and language tag included). -/
inductive Seg where
  | prose (text : List Char)
  | code (text : List Char)
deriving DecidableEq, Repr

/-- Modelled from the spec: the fence scanner of `replaceCodeBlocks`
(`md-utils`, code not in the sources).  §4.1: "Recognizes fenced code
regions using the document's fence syntax; each match, in document order"
— the scanner walks the document, alternating between prose and code mode
at each three-backquote fence, storing each fenced region verbatim
"(including fence delimiters and language tag)".  An unterminated trailing
fence region is kept verbatim as code.  `acc` holds the current segment's
characters in reverse. -/
def scan : Bool → List Char → List Char → List Seg
  | inCode, acc, [] =>
      if acc.isEmpty then []
      else if inCode then [Seg.code acc.reverse] else [Seg.prose acc.reverse]
  | inCode, acc, c1 :: c2 :: c3 :: rest =>
      if c1 = backquote ∧ c2 = backquote ∧ c3 = backquote then
        if inCode then
          Seg.code (acc.reverse ++ fenceL) :: scan false [] rest
        else if acc.isEmpty then
          scan true fenceL.reverse rest
        else
          Seg.prose acc.reverse :: scan true fenceL.reverse rest
      else
        scan inCode (c1 :: acc) (c2 :: c3 :: rest)
  | inCode, acc, c :: rest => scan inCode (c :: acc) rest

/-- Concatenation of a segment list back into the document text. -/
def joinSegs : List Seg → List Char
  | [] => []
  | Seg.prose p :: rest => p ++ joinSegs rest
  | Seg.code c :: rest => c ++ joinSegs rest

/-- Modelled from the spec: the placeholder marker for block `id` —
"a short unique inline marker referencing its placeholder id" (§4.1), built
from "a reserved unlikely-to-collide token plus a numeric id" (§9). -/
def markerL (id : Nat) : List Char :=
  '⟦' :: 'C' :: 'B' :: ':' :: ((Nat.repr id).data ++ ['⟧'])

/-- Shielded rendering of a segment list: prose is kept, the `i`-th code
region (in document order) is replaced by `markerL i`. -/
def renderSegs : Nat → List Seg → List Char
  | _, [] => []
  | i, Seg.prose p :: rest => p ++ renderSegs i rest
  | i, Seg.code _ :: rest => markerL i ++ renderSegs (i + 1) rest

/-- The code regions of a segment list, in document order. -/
def codesOf : List Seg → List (List Char)
  | [] => []
  | Seg.prose _ :: rest => codesOf rest
  | Seg.code c :: rest => c :: codesOf rest

/-- Replace the first (leftmost) occurrence of `pat` in `s` by `rep`;
if `pat` does not occur, `s` is unchanged.  This is the string-pattern
behaviour of JavaScript `String.prototype.replace`. -/
def replaceOnce : List Char → List Char → List Char → List Char
  | [], _, _ => []
  | c :: cs, pat, rep =>
      if pat.isPrefixOf (c :: cs) then rep ++ (c :: cs).drop pat.length
      else c :: replaceOnce cs pat rep

/-- Result record of `replaceCodeBlocks`: the shielded text and the block
table. -/
structure ReplaceResult where
  output : String
  codeBlocks : List String
deriving DecidableEq, Repr

/-- Modelled from the spec: `replaceCodeBlocks` of `md-utils` (code not in
the sources).  §4.1 `extract(text) -> (shielded, blocks)`: each fenced code
region, in document order, is replaced by its marker, and the original
fenced content is stored verbatim in the block table. -/
def replaceCodeBlocks (md : String) : ReplaceResult :=
  let segs := scan false [] md.data
  ⟨⟨renderSegs 0 segs⟩, (codesOf segs).map (fun c => ⟨c⟩)⟩

/-- Restore blocks `i, i+1, ...` into `text`, marker-driven, in the order
the placeholders were produced. -/
def restoreFrom : Nat → List (List Char) → List Char → List Char
  | _, [], text => text
  | i, c :: bs, text => restoreFrom (i + 1) bs (replaceOnce text (markerL i) c)

/-- Modelled from the spec: `restoreCodeBlocks` of `md-utils` (code not in
the sources).  §4.1: "`restore` replaces each marker, in the order the
placeholders were produced, with its stored original text. Restoration must
be marker-driven, not position-driven". -/
def restoreCodeBlocks (md : String) (codeBlocks : List String) : String :=
  ⟨restoreFrom 0 (codeBlocks.map String.data) md.data⟩

/-! ## BlankLineFragmenter (`md-utils`, modelled from the spec) -/

/-- Start positions of the (non-overlapping, leftmost-first) blank-line
separators of a character list: each separator is one blank line, i.e. the
two characters `"\n\n"`. -/
def blankPositions : List Char → List Nat
  | '\n' :: '\n' :: rest => 0 :: (blankPositions rest).map (· + 2)
  | _ :: rest => (blankPositions rest).map (· + 1)
  | [] => []

/-- Distance between two naturals. -/
def natDist (a b : Nat) : Nat := max a b - min a b

/-- The candidate position nearest to `mid` (earlier position preferred on
ties). -/
def nearestTo (mid : Nat) : List Nat → Option Nat
  | [] => none
  | p :: ps =>
      match nearestTo mid ps with
      | none => some p
      | some q => some (if natDist p mid ≤ natDist q mid then p else q)

/-- Split a character list at each blank-line separator, separators
removed. -/
def splitOnBlank : List Char → List (List Char)
  | [] => [[]]
  | '\n' :: '\n' :: rest => [] :: splitOnBlank rest
  | c :: rest =>
      match splitOnBlank rest with
      | s :: ss => (c :: s) :: ss
      | [] => [[c]]

/-- Modelled from the spec: the approximate, monotone token-size metric of
the fragmenter (§4.2 allows "a simple word/character heuristic"). -/
def approxTokens (s : List Char) : Nat := s.length / 4

/-- Greedy accumulation of paragraph segments into budget-bounded fragments
(§4.2): segments are appended to the current fragment while the metric
stays within the budget; a single over-long segment is allowed as its own
fragment. -/
def greedyGo (budget : Nat) : List Char → List (List Char) → List (List Char)
  | cur, [] => [cur]
  | cur, s :: rest =>
      if approxTokens (cur ++ '\n' :: '\n' :: s) ≤ budget then
        greedyGo budget (cur ++ '\n' :: '\n' :: s) rest
      else
        cur :: greedyGo budget s rest

/-- Budget-driven chunking of the paragraph segments. -/
def greedyChunks (budget : Nat) : List (List Char) → List (List Char)
  | [] => []
  | s :: rest => greedyGo budget s rest

/-- Modelled from the spec: `splitStringAtBlankLines` of `md-utils` (code
not in the sources).  §4.2: returns `null` when no blank-line boundary
exists anywhere in the text; `budget = 0` is the bisection mode returning
exactly two fragments split at the blank-line boundary nearest the
document's midpoint; a positive budget gives greedy budget-driven
chunking. -/
def splitStringAtBlankLines (input : String) (fragmentSize : Nat) :
    Option (List String) :=
  let l := input.data
  if blankPositions l = [] then none
  else if fragmentSize = 0 then
    match nearestTo (l.length / 2) (blankPositions l) with
    | none => none
    | some k => some [⟨l.take k⟩, ⟨l.drop (k + 2)⟩]
  else
    some ((greedyChunks fragmentSize (splitOnBlank l)).map (fun c => ⟨c⟩))

/-! ## The translation collaborator (external interface, §6) -/

/-- Outcome of one streaming translation request:
`{ success(text) | failure(message) }` (§6); in the source the settled
value is `res` with `res.status === 'error'` carrying `res.message`, and
otherwise `res.translation`. -/
inductive ApiResult where
  | success (translation : String)
  | error (message : String)
deriving DecidableEq, Repr

/-- One settled call of the collaborator: the intermediate statuses it
streamed into the `onStatus` sink before settling, and its outcome. -/
structure ApiOut where
  emits : List RuntimeStatus
  result : ApiResult
deriving DecidableEq, Repr

/-- The external translation collaborator (`callApi` of `api.ts`, out of
scope per §1): a deterministic oracle from `(text, instruction, options)`
to the streamed statuses and the outcome.  The `options` record (which
carries a floating-point temperature) is kept abstract as a type
parameter. -/
def Oracle (O : Type) : Type := String → String → O → ApiOut

/-- Case-insensitive substring test: whether `pat` occurs in `l`. -/
def occursIn (pat : List Char) : List Char → Bool
  | [] => pat.isEmpty
  | c :: cs => pat.isPrefixOf (c :: cs) || occursIn pat cs

/-- The size/stream failure test of `translateOne`
(`src/index.ts` line 92, `src/unnamed/part_000` line 85):
`res.message.match(/reduce the length|stream read error/i)`. -/
def matchSizePattern (message : String) : Bool :=
  occursIn "reduce the length".data (message.data.map Char.toLower) ||
    occursIn "stream read error".data (message.data.map Char.toLower)

/-- Embedding of `Promise.all` over the settled child outcomes: succeeds with the list of
values in positional order, fails when any child failed. -/
def collectResults : List (Except String String) → Except String (List String)
  | [] => Except.ok []
  | Except.error e :: _ => Except.error e
  | Except.ok r :: rest => (collectResults rest).map (fun rs => r :: rs)

/-- Embedding of `handleNewStatus` of `translateMultiple` (`src/index.ts` lines 55-63,
identically `src/unnamed/part_000` lines 55-63): store the child's status
in its per-index slot, then re-emit the composite
`pending` whose `lastToken` is
`` `[${statuses.map(statusToText).join(', ')}]` ``.  JavaScript's
`Array.prototype.join` renders the `undefined` produced by `statusToText`
on a `waiting` slot as the empty string, embedded by `Option.getD ""`. -/
def handleNewStatus (statuses : List RuntimeStatus) (index : Nat)
    (status : RuntimeStatus) : List RuntimeStatus × RuntimeStatus :=
  let statuses' := statuses.set index status
  (statuses',
    RuntimeStatus.pending
      ("[" ++
        String.intercalate ", "
          (statuses'.map (fun s => (statusToTextR s).getD "")) ++ "]"))

/-- Feed one child's status updates, in order, through
`handleNewStatus slots i`; returns the final slots and the emitted
composites. -/
def feedOne : List RuntimeStatus → Nat → List RuntimeStatus →
    List RuntimeStatus × List RuntimeStatus
  | slots, _, [] => (slots, [])
  | slots, i, e :: es =>
      ((feedOne (handleNewStatus slots i e).1 i es).1,
        (handleNewStatus slots i e).2 ::
          (feedOne (handleNewStatus slots i e).1 i es).2)

/-- Feed every child's updates (child `i` first, then `i+1`, ...): one
linearisation of the cooperative interleaving of §5. -/
def feedAll : List RuntimeStatus → Nat → List (List RuntimeStatus) →
    List RuntimeStatus
  | _, _, [] => []
  | slots, i, t :: ts =>
      (feedOne slots i t).2 ++ feedAll (feedOne slots i t).1 (i + 1) ts

/-- Distinguished error of the fuel-based embedding of the retry recursion;
reached only when the fuel runs out, which no claim relies on. -/
def fuelExhausted : String := "model: fuel exhausted"

/-- Positional assembly of completion events, modelling `Promise.all`'s
result array: completion order is the list order of `completions`, but each
value is stored at its fragment index, and the array is read back in index
order and joined with a blank line. -/
def assembleByIndex (n : Nat) (completions : List (Nat × String)) : String :=
  String.intercalate "\n\n"
    ((List.range n).map
      (fun i => (((completions.find? (fun p => p.1 == i)).map Prod.snd).getD "")))

/-! ## The orchestrator of `src/index.ts` -/

namespace IndexTs

/-- The slot initialisation of `translateMultiple` (`src/index.ts` lines
51-53): `new Array(fragments.length).fill(0).map(() => ({ status:
'waiting' }))` — each slot holds the out-of-type `waiting` literal. -/
def initialStatuses (n : Nat) : List RuntimeStatus :=
  List.replicate n RuntimeStatus.waiting

/-- Body of `translateMultiple` (`src/index.ts` lines 44-78), with the
per-fragment translator abstracted: initialise the slots, emit
`pending("")` (line 54), run every fragment through the translator with
`handleNewStatus(index)` as its sink (lines 64-74, linearised in index
order), and on joint success emit `done(joined)` and return the join of
the results in index order with a blank-line separator (lines 75-77). -/
def multipleBody
    (translateOneF : String → List RuntimeStatus × Except String String)
    (fragments : List String) : List RuntimeStatus × Except String String :=
  let outs := fragments.map translateOneF
  let trace := RuntimeStatus.pending "" ::
    feedAll (initialStatuses fragments.length) 0 (outs.map Prod.fst)
  match collectResults (outs.map Prod.snd) with
  | Except.error e => (trace, Except.error e)
  | Except.ok results =>
      (trace ++ [RuntimeStatus.done (String.intercalate "\n\n" results)],
        Except.ok (String.intercalate "\n\n" results))

/-- Embedding of `translateOne` (`src/index.ts` lines 80-113): emit the (out-of-type)
`waiting` status (line 87), call the collaborator forwarding its streamed
statuses to the same sink (line 88); on a terminal failure matching the
size/stream pattern, bisect with `splitStringAtBlankLines(text, 0)` and
either return the text unchanged (`null` split, line 101) or recurse into
`translateMultiple` on the fragments with the same sink (lines 102-108);
any other failure is thrown (line 111); on success return the translation
(line 112).  `fuel` bounds the retry recursion depth. -/
def translateOne {O : Type} (call : Oracle O) (instruction : String)
    (apiOptions : O) : Nat → String → List RuntimeStatus × Except String String
  | fuel, text =>
      let res := call text instruction apiOptions
      let out : List RuntimeStatus × Except String String :=
        match res.result with
        | ApiResult.error message =>
            if matchSizePattern message then
              match splitStringAtBlankLines text 0 with
              | none => ([], Except.ok text)
              | some splitResult =>
                  match fuel with
                  | 0 => ([], Except.error fuelExhausted)
                  | f + 1 =>
                      multipleBody (translateOne call instruction apiOptions f)
                        splitResult
            else ([], Except.error message)
        | ApiResult.success translation => ([], Except.ok translation)
      (RuntimeStatus.waiting :: res.emits ++ out.1, out.2)

/-- Embedding of `translateMultiple` (`src/index.ts` lines 44-78): `multipleBody` with
`translateOne` as the per-fragment translator. -/
def translateMultiple {O : Type} (call : Oracle O) (instruction : String)
    (apiOptions : O) (fuel : Nat) (fragments : List String) :
    List RuntimeStatus × Except String String :=
  multipleBody (translateOne call instruction apiOptions fuel) fragments

end IndexTs

/-! ## The orchestrator of `src/unnamed/part_000` -/

namespace Part0

/-- The slot initialisation of `translateMultiple`
(`src/unnamed/part_000` lines 50-53): each slot starts as
`{ status: 'pending', lastToken: '' }`. -/
def initialStatuses (n : Nat) : List RuntimeStatus :=
  List.replicate n (RuntimeStatus.pending "")

/-- Body of `translateMultiple` (`src/unnamed/part_000` lines 44-72), with
the per-fragment translator abstracted; identical to the `src/index.ts`
variant except for the slot initialisation. -/
def multipleBody
    (translateOneF : String → List RuntimeStatus × Except String String)
    (fragments : List String) : List RuntimeStatus × Except String String :=
  let outs := fragments.map translateOneF
  let trace := RuntimeStatus.pending "" ::
    feedAll (initialStatuses fragments.length) 0 (outs.map Prod.fst)
  match collectResults (outs.map Prod.snd) with
  | Except.error e => (trace, Except.error e)
  | Except.ok results =>
      (trace ++ [RuntimeStatus.done (String.intercalate "\n\n" results)],
        Except.ok (String.intercalate "\n\n" results))

/-- Embedding of `translateOne` (`src/unnamed/part_000` lines 74-100): identical to the
`src/index.ts` variant except that the first emitted status is the declared
`pending("")` (line 80). -/
def translateOne {O : Type} (call : Oracle O) (instruction : String)
    (apiOptions : O) : Nat → String → List RuntimeStatus × Except String String
  | fuel, text =>
      let res := call text instruction apiOptions
      let out : List RuntimeStatus × Except String String :=
        match res.result with
        | ApiResult.error message =>
            if matchSizePattern message then
              match splitStringAtBlankLines text 0 with
              | none => ([], Except.ok text)
              | some splitResult =>
                  match fuel with
                  | 0 => ([], Except.error fuelExhausted)
                  | f + 1 =>
                      multipleBody (translateOne call instruction apiOptions f)
                        splitResult
            else ([], Except.error message)
        | ApiResult.success translation => ([], Except.ok translation)
      (RuntimeStatus.pending "" :: res.emits ++ out.1, out.2)

/-- Embedding of `translateMultiple` (`src/unnamed/part_000` lines 44-72). -/
def translateMultiple {O : Type} (call : Oracle O) (instruction : String)
    (apiOptions : O) (fuel : Nat) (fragments : List String) :
    List RuntimeStatus × Except String String :=
  multipleBody (translateOne call instruction apiOptions fuel) fragments

end Part0

deriving instance DecidableEq for Except

/-! ## Lemmas and claim theorems -/


theorem stringDataEq {a b : String} (h : a.data = b.data) : a = b := by
  cases a; cases b; exact congrArg String.mk h

theorem joinSegs_scan :
    ∀ (inCode : Bool) (acc l : List Char),
      joinSegs (scan inCode acc l) = acc.reverse ++ l := by
  intro inCode acc l
  induction inCode, acc, l using scan.induct with
  | case1 inCode acc h =>
      simp [scan, h, List.isEmpty_iff.mp h, joinSegs]
  | case2 acc h =>
      simp [scan, h, joinSegs]
  | case3 inCode acc h hic =>
      simp only [Bool.not_eq_true] at hic
      simp [scan, h, hic, joinSegs]
  | case4 acc c1 c2 c3 rest hf ih =>
      obtain ⟨h1, h2, h3⟩ := hf
      subst h1; subst h2; subst h3
      simp [scan, joinSegs, ih, fenceL]
  | case5 inCode acc c1 c2 c3 rest hf hic hacc ih =>
      obtain ⟨h1, h2, h3⟩ := hf
      subst h1; subst h2; subst h3
      simp only [Bool.not_eq_true] at hic
      simp [fenceL] at ih
      simp [scan, hic, hacc, joinSegs, ih, fenceL, List.isEmpty_iff.mp hacc]
  | case6 inCode acc c1 c2 c3 rest hf hic hacc ih =>
      obtain ⟨h1, h2, h3⟩ := hf
      subst h1; subst h2; subst h3
      simp only [Bool.not_eq_true] at hic
      simp [fenceL] at ih
      simp [scan, hic, hacc, joinSegs, ih, fenceL]
  | case7 inCode acc c1 c2 c3 rest hf ih =>
      simp [scan, hf, joinSegs, ih]
  | case8 inCode acc c rest hshort ih =>
      match rest, hshort with
      | [], _ => cases inCode <;> simp_all [scan, joinSegs]
      | [c2], _ => cases inCode <;> simp_all [scan, joinSegs]
      | c2 :: c3 :: rest2, hshort => exact absurd rfl (hshort c2 c3 rest2)

theorem replaceOnce_append (mc : Char) (mrest : List Char) :
    ∀ (a b rep : List Char), mc ∉ a →
      replaceOnce (a ++ ((mc :: mrest) ++ b)) (mc :: mrest) rep = a ++ (rep ++ b) := by
  intro a
  induction a with
  | nil =>
      intro b rep _
      have hpre : (mc :: mrest).isPrefixOf ((mc :: mrest) ++ b) = true := by
        exact List.isPrefixOf_iff_prefix.mpr (List.prefix_append _ _)
      simp [replaceOnce, hpre, List.drop_left]
  | cons x a ih =>
      intro b rep hnot
      have hx : ¬mc = x := fun h => hnot (h ▸ List.mem_cons_self x a)
      have hnot' : mc ∉ a := fun h => hnot (List.mem_cons_of_mem x h)
      simp [replaceOnce, hx]
      simpa using ih b rep hnot'

theorem restoreFrom_render :
    ∀ (segs : List Seg) (i : Nat) (acc : List Char),
      '⟦' ∉ acc ++ joinSegs segs →
      restoreFrom i (codesOf segs) (acc ++ renderSegs i segs) = acc ++ joinSegs segs := by
  intro segs
  induction segs with
  | nil => intro i acc _; simp [codesOf, renderSegs, restoreFrom, joinSegs]
  | cons s rest ih =>
      intro i acc h
      cases s with
      | prose p =>
          have h' : '⟦' ∉ (acc ++ p) ++ joinSegs rest := by
            simpa [joinSegs, List.append_assoc] using h
          have := ih i (acc ++ p) h'
          simpa [codesOf, renderSegs, joinSegs, List.append_assoc] using this
      | code c =>
          have hacc : '⟦' ∉ acc := fun hm => h (List.mem_append_left _ hm)
          have h' : '⟦' ∉ (acc ++ c) ++ joinSegs rest := by
            simpa [joinSegs, List.append_assoc] using h
          have hrepl := replaceOnce_append '⟦'
            ('C' :: 'B' :: ':' :: ((Nat.repr i).data ++ ['⟧']))
            acc (renderSegs (i + 1) rest) c hacc
          have := ih (i + 1) (acc ++ c) h'
          simp only [codesOf, renderSegs, joinSegs, restoreFrom, markerL]
          rw [hrepl]
          simpa [List.append_assoc] using this

theorem stringEmptyOfLengthZero {s : String} (h : s.length = 0) : s = "" := by
  apply stringDataEq
  cases s with
  | mk d =>
      cases d with
      | nil => rfl
      | cons c cs => simp [String.length] at h

theorem stringAppendNeEmpty {a b : String} (ha : a.data ≠ []) : a ++ b ≠ "" := by
  intro hcon
  have h2 := congrArg String.data hcon
  rw [String.data_append] at h2
  exact ha (List.append_eq_nil.mp h2).1

theorem blankPositions_spec :
    ∀ (l : List Char) (k : Nat), k ∈ blankPositions l →
      l.take k ++ '\n' :: '\n' :: l.drop (k + 2) = l := by
  intro l
  induction l using blankPositions.induct with
  | case1 rest ih =>
      intro k hk
      simp only [blankPositions, List.mem_cons, List.mem_map] at hk
      rcases hk with rfl | ⟨j, hj, rfl⟩
      · simp
      · have := ih j hj
        simpa [List.take_succ_cons, List.drop_succ_cons, Nat.add_right_comm] using this
  | case2 c rest hne ih =>
      intro k hk
      simp only [blankPositions, List.mem_map] at hk
      obtain ⟨j, hj, rfl⟩ := hk
      have := ih j hj
      simpa [List.take_succ_cons, List.drop_succ_cons, Nat.add_right_comm] using this
  | case3 =>
      intro k hk
      simp [blankPositions] at hk

theorem nearestTo_mem :
    ∀ (ps : List Nat) (mid k : Nat), nearestTo mid ps = some k → k ∈ ps := by
  intro ps
  induction ps with
  | nil => intro mid k h; simp [nearestTo] at h
  | cons p ps ih =>
      intro mid k h
      simp only [nearestTo] at h
      cases hrec : nearestTo mid ps with
      | none => rw [hrec] at h; simp at h; simp [h]
      | some q =>
          rw [hrec] at h
          simp at h
          by_cases hle : natDist p mid ≤ natDist q mid
          · rw [if_pos hle] at h; simp [← h]
          · rw [if_neg hle] at h
            exact List.mem_cons_of_mem p (h ▸ ih mid q hrec)

theorem nearestTo_eq_none :
    ∀ (ps : List Nat) (mid : Nat), nearestTo mid ps = none ↔ ps = [] := by
  intro ps mid
  cases ps with
  | nil => simp [nearestTo]
  | cons p ps =>
      simp only [nearestTo]
      cases nearestTo mid ps <;> simp

theorem collectResults_map_ok
    (one : String → List RuntimeStatus × Except String String)
    (tr : String → String) :
    ∀ fragments : List String,
      (∀ f ∈ fragments, (one f).2 = Except.ok (tr f)) →
      collectResults ((fragments.map one).map Prod.snd)
        = Except.ok (fragments.map tr) := by
  intro fragments
  induction fragments with
  | nil => intro _; simp [collectResults]
  | cons f fs ih =>
      intro h
      have hf := h f (List.mem_cons_self f fs)
      have hfs := ih (fun g hg => h g (List.mem_cons_of_mem f hg))
      simp only [List.map_map] at hfs
      simp [collectResults, hf, hfs, Except.map]

theorem collectResults_ok_mem :
    ∀ (l : List (Except String String)) (rs : List String),
      collectResults l = Except.ok rs → ∀ x ∈ l, ∃ r, x = Except.ok r := by
  intro l
  induction l with
  | nil => intro rs _ x hx; simp at hx
  | cons a l ih =>
      intro rs h x hx
      cases a with
      | error e => simp [collectResults] at h
      | ok r =>
          rcases List.mem_cons.mp hx with rfl | hx'
          · exact ⟨r, rfl⟩
          · simp only [collectResults] at h
            cases hrec : collectResults l with
            | error e => rw [hrec] at h; simp [Except.map] at h
            | ok rs' => exact ih rs' hrec x hx'

theorem collectResults_error_of_mem :
    ∀ (l : List (Except String String)) (e : String), Except.error e ∈ l →
      ∃ msg, collectResults l = Except.error msg := by
  intro l
  induction l with
  | nil => intro e he; simp at he
  | cons a l ih =>
      intro e he
      cases a with
      | error e' => exact ⟨e', rfl⟩
      | ok r =>
          rcases List.mem_cons.mp he with heq | he'
          · exact absurd heq (by simp)
          · obtain ⟨msg, hmsg⟩ := ih e he'
            refine ⟨msg, ?_⟩
            simp [collectResults, hmsg, Except.map]

theorem feedOne_pending :
    ∀ (t : List RuntimeStatus) (slots : List RuntimeStatus) (i : Nat)
      (e : RuntimeStatus), e ∈ (feedOne slots i t).2 →
      ∃ tok, e = RuntimeStatus.pending tok := by
  intro t
  induction t with
  | nil => intro slots i e he; simp [feedOne] at he
  | cons u t ih =>
      intro slots i e he
      simp only [feedOne, List.mem_cons] at he
      rcases he with rfl | he'
      · exact ⟨_, rfl⟩
      · exact ih _ i e he'

theorem feedAll_pending :
    ∀ (ts : List (List RuntimeStatus)) (slots : List RuntimeStatus) (i : Nat)
      (e : RuntimeStatus), e ∈ feedAll slots i ts →
      ∃ tok, e = RuntimeStatus.pending tok := by
  intro ts
  induction ts with
  | nil => intro slots i e he; simp [feedAll] at he
  | cons t ts ih =>
      intro slots i e he
      simp only [feedAll, List.mem_append] at he
      rcases he with he' | he'
      · exact feedOne_pending t slots i e he'
      · exact ih _ _ e he'

theorem feedOne_composite :
    ∀ (t : List RuntimeStatus) (slots : List RuntimeStatus) (i : Nat)
      (e : RuntimeStatus), e ∈ (feedOne slots i t).2 →
      ∃ s x, e = (handleNewStatus s i x).2 := by
  intro t
  induction t with
  | nil => intro slots i e he; simp [feedOne] at he
  | cons u t ih =>
      intro slots i e he
      simp only [feedOne, List.mem_cons] at he
      rcases he with rfl | he'
      · exact ⟨slots, u, rfl⟩
      · exact ih _ i e he'

theorem feedAll_composite :
    ∀ (ts : List (List RuntimeStatus)) (slots : List RuntimeStatus) (i : Nat)
      (e : RuntimeStatus), e ∈ feedAll slots i ts →
      ∃ s j x, e = (handleNewStatus s j x).2 := by
  intro ts
  induction ts with
  | nil => intro slots i e he; simp [feedAll] at he
  | cons t ts ih =>
      intro slots i e he
      simp only [feedAll, List.mem_append] at he
      rcases he with he' | he'
      · obtain ⟨s, x, hx⟩ := feedOne_composite t slots i e he'
        exact ⟨s, i, x, hx⟩
      · exact ih _ _ e he'

theorem assembleByIndex_perm (results : List String) :
    ∀ completions : List (Nat × String), completions.Perm results.enum →
      assembleByIndex results.length completions
        = String.intercalate "\n\n" results := by
  intro completions hperm
  unfold assembleByIndex
  congr 1
  apply List.ext_getElem
  · simp
  · intro i h1 h2
    simp only [List.getElem_map, List.getElem_range]
    have hin : i < results.length := h2
    have hmemEnum : (i, results[i]) ∈ results.enum :=
      List.mk_mem_enum_iff_getElem?.mpr (by simp [List.getElem?_eq_getElem hin])
    have hmem : (i, results[i]) ∈ completions := hperm.mem_iff.mpr hmemEnum
    have hsome : (completions.find? (fun p => p.1 == i)).isSome := by
      rw [List.find?_isSome]
      exact ⟨(i, results[i]), hmem, by simp⟩
    obtain ⟨a, ha⟩ := Option.isSome_iff_exists.mp hsome
    have hpa : a.1 = i := by simpa using List.find?_some ha
    have hamem : (a.1, a.2) ∈ results.enum := by
      have := hperm.mem_iff.mp (List.mem_of_find?_eq_some ha)
      simpa using this
    have hget : results[a.1]? = some a.2 := List.mk_mem_enum_iff_getElem?.mp hamem
    rw [hpa] at hget
    rw [List.getElem?_eq_getElem hin] at hget
    rw [ha]
    simp [Option.some.inj hget]

deriving instance DecidableEq for Except

theorem getLastOfConsAppendSingle {α : Type} (x d : α) (l : List α) :
    ((x :: l) ++ [d]).getLast? = some d := by
  rw [List.getLast?_append_of_ne_nil _ (by simp)]
  rfl

theorem filterLengthOne {α : Type} (p : α → Bool) (x d : α) (l : List α)
    (hx : p x = false) (hl : ∀ e ∈ l, p e = false) (hd : p d = true) :
    (((x :: l) ++ [d]).filter p).length = 1 := by
  simp [List.filter_cons, hx, List.filter_append,
    List.filter_eq_nil_iff.mpr (by simpa using hl), hd]

theorem multipleBody_result_congr
    (one1 one2 : String → List RuntimeStatus × Except String String)
    (h : ∀ t, (one1 t).2 = (one2 t).2) (fragments : List String) :
    (IndexTs.multipleBody one1 fragments).2
      = (Part0.multipleBody one2 fragments).2 := by
  have hmap : fragments.map (Prod.snd ∘ one1)
      = fragments.map (Prod.snd ∘ one2) :=
    List.map_congr_left (fun t _ => h t)
  simp only [IndexTs.multipleBody, Part0.multipleBody, List.map_map, hmap]
  cases collectResults (fragments.map (Prod.snd ∘ one2)) <;> simp

theorem translateOne_result_agrees {O : Type} (call : Oracle O)
    (instruction : String) (apiOptions : O) :
    ∀ (fuel : Nat) (text : String),
      (IndexTs.translateOne call instruction apiOptions fuel text).2
        = (Part0.translateOne call instruction apiOptions fuel text).2 := by
  intro fuel
  induction fuel with
  | zero =>
      intro text
      cases hres : (call text instruction apiOptions).result with
      | success t => simp [IndexTs.translateOne, Part0.translateOne, hres]
      | error message =>
          by_cases hpat : matchSizePattern message
          · cases hsplit : splitStringAtBlankLines text 0 with
            | none =>
                simp [IndexTs.translateOne, Part0.translateOne, hres, hpat,
                  hsplit]
            | some splitResult =>
                simp [IndexTs.translateOne, Part0.translateOne, hres, hpat,
                  hsplit]
          · simp [IndexTs.translateOne, Part0.translateOne, hres, hpat]
  | succ n ih =>
      intro text
      simp only [IndexTs.translateOne, Part0.translateOne]
      cases hres : (call text instruction apiOptions).result with
      | success t => rfl
      | error message =>
          by_cases hpat : matchSizePattern message
          · cases hsplit : splitStringAtBlankLines text 0 with
            | none => simp [hres, hpat, hsplit]
            | some splitResult =>
                simp only [hres, hpat, hsplit, if_true]
                exact multipleBody_result_congr _ _ (fun t => ih t) splitResult
          · simp [hres, hpat]

/-- Claim C1, counterexample: the round-trip identity
`restoreCodeBlocks (replaceCodeBlocks d).output (replaceCodeBlocks d).codeBlocks = d`
does not hold for every document.  A document whose prose already contains
the literal marker text of its first code block is corrupted: restoration
is marker-driven and replaces the first occurrence of the marker, which here
lies in the prose. -/
theorem C1_roundtrip_counterexample :
    restoreCodeBlocks (replaceCodeBlocks "⟦CB:0⟧ ```a```").output
        (replaceCodeBlocks "⟦CB:0⟧ ```a```").codeBlocks ≠ "⟦CB:0⟧ ```a```" := by
  decide

/-- Claim C1, amended: for every document in which the reserved marker
character does not occur (the specification itself requires "the marker
alphabet to be guaranteed absent from the original document", §9),
restoring the shielded text with the block table produced by extraction
yields the document exactly. -/
theorem C1_roundtrip (d : String) (h : '⟦' ∉ d.data) :
    restoreCodeBlocks (replaceCodeBlocks d).output
      (replaceCodeBlocks d).codeBlocks = d := by
  apply stringDataEq
  have hjoin : joinSegs (scan false [] d.data) = d.data := by
    simpa using joinSegs_scan false [] d.data
  have h' : '⟦' ∉ ([] : List Char) ++ joinSegs (scan false [] d.data) := by
    simpa [hjoin] using h
  have := restoreFrom_render (scan false [] d.data) 0 [] h'
  simp only [List.nil_append] at this
  simp only [restoreCodeBlocks, replaceCodeBlocks, List.map_map]
  have hid : (String.data ∘ fun c : List Char => (⟨c⟩ : String)) = id := rfl
  rw [hid, List.map_id, this, hjoin]

/-- Witness for the amended claim C1 at a concrete document containing one
fenced code block surrounded by prose. -/
theorem C1_roundtrip_witness :
    '⟦' ∉ ("hello\n```js\ncode\n```\nbye" : String).data ∧
      restoreCodeBlocks (replaceCodeBlocks "hello\n```js\ncode\n```\nbye").output
        (replaceCodeBlocks "hello\n```js\ncode\n```\nbye").codeBlocks
        = "hello\n```js\ncode\n```\nbye" :=
  ⟨by decide, C1_roundtrip "hello\n```js\ncode\n```\nbye" (by decide)⟩

/-- Claim C2: on a terminal failure whose message matches the size/stream
pattern, `translateOne` consults the blank-line splitter in bisection mode
(budget `0`); a `null` split returns the original text unchanged with no
error, and a successful split returns the result of `translateMultiple` on
the fragments, recursively, with the emitted statuses flowing into the same
`onStatus` sink (the recursive trace is appended to this call's trace). -/
theorem C2_size_retry {O : Type} (call : Oracle O) (instruction : String)
    (apiOptions : O) (fuel : Nat) (text msg : String)
    (herr : (call text instruction apiOptions).result = ApiResult.error msg)
    (hpat : matchSizePattern msg = true) :
    (splitStringAtBlankLines text 0 = none →
      IndexTs.translateOne call instruction apiOptions (fuel + 1) text
        = (RuntimeStatus.waiting :: (call text instruction apiOptions).emits,
            Except.ok text)) ∧
    (∀ splitResult, splitStringAtBlankLines text 0 = some splitResult →
      IndexTs.translateOne call instruction apiOptions (fuel + 1) text
        = (RuntimeStatus.waiting :: ((call text instruction apiOptions).emits ++
            (IndexTs.translateMultiple call instruction apiOptions fuel
              splitResult).1),
           (IndexTs.translateMultiple call instruction apiOptions fuel
              splitResult).2)) := by
  constructor
  · intro hnone
    simp [IndexTs.translateOne, herr, hpat, hnone]
  · intro splitResult hsome
    simp [IndexTs.translateOne, IndexTs.translateMultiple, herr, hpat, hsome]

/-- Witness for claim C2: a collaborator that always fails with
"reduce the length" on the unsplittable text "abc" makes `translateOne`
return the text unchanged. -/
theorem C2_size_retry_witness :
    matchSizePattern "reduce the length" = true ∧
      splitStringAtBlankLines "abc" 0 = none ∧
      IndexTs.translateOne
          (fun _ _ _ => ApiOut.mk [] (ApiResult.error "reduce the length"))
          "inst" () 1 "abc"
        = ([RuntimeStatus.waiting], Except.ok "abc") := by
  refine ⟨by decide, by decide, ?_⟩
  have := (C2_size_retry
    (fun _ _ _ => ApiOut.mk [] (ApiResult.error "reduce the length"))
    "inst" () 0 "abc" "reduce the length" rfl (by decide)).1 (by decide)
  simpa using this

/-- Claim C3: when every fragment translates successfully,
`translateMultiple` returns the per-fragment results joined in original
index order with a blank-line separator; the final emitted status is the
single `done` status of the whole trace and carries exactly the joined
text; and positional assembly of the completion events yields the same
joined text for every completion order (every permutation). -/
theorem C3_positional_join {O : Type} (call : Oracle O) (instruction : String)
    (apiOptions : O) (fuel : Nat) (fragments : List String) (tr : String → String)
    (h : ∀ f ∈ fragments,
      (IndexTs.translateOne call instruction apiOptions fuel f).2
        = Except.ok (tr f)) :
    (IndexTs.translateMultiple call instruction apiOptions fuel fragments).2
        = Except.ok (String.intercalate "\n\n" (fragments.map tr)) ∧
      (IndexTs.translateMultiple call instruction apiOptions fuel
          fragments).1.getLast?
        = some (RuntimeStatus.done
            (String.intercalate "\n\n" (fragments.map tr))) ∧
      ((IndexTs.translateMultiple call instruction apiOptions fuel
          fragments).1.filter isDoneStatus).length = 1 ∧
      (∀ completions : List (Nat × String),
        completions.Perm (fragments.map tr).enum →
        assembleByIndex fragments.length completions
          = String.intercalate "\n\n" (fragments.map tr)) := by
  have hc := collectResults_map_ok
    (IndexTs.translateOne call instruction apiOptions fuel) tr fragments h
  simp only [List.map_map] at hc
  refine ⟨?_, ?_, ?_, ?_⟩
  · simp [IndexTs.translateMultiple, IndexTs.multipleBody, hc]
  · simp only [IndexTs.translateMultiple, IndexTs.multipleBody, List.map_map, hc]
    exact getLastOfConsAppendSingle _ _ _
  · simp only [IndexTs.translateMultiple, IndexTs.multipleBody, List.map_map, hc]
    refine filterLengthOne _ _ _ _ rfl ?_ rfl
    intro e he
    obtain ⟨tok, rfl⟩ := feedAll_pending _ _ _ e he
    rfl
  · intro completions hp
    have := assembleByIndex_perm (fragments.map tr) completions hp
    simpa using this

/-- Witness for claim C3 with the identity collaborator on two fragments. -/
theorem C3_positional_join_witness :
    (∀ f ∈ (["para one", "para two"] : List String),
      (IndexTs.translateOne (fun t _ _ => ApiOut.mk [] (ApiResult.success t))
          "inst" () 0 f).2 = Except.ok (id f)) ∧
      (IndexTs.translateMultiple
          (fun t _ _ => ApiOut.mk [] (ApiResult.success t)) "inst" () 0
          ["para one", "para two"]).2 = Except.ok "para one\n\npara two" := by
  have h : ∀ f ∈ (["para one", "para two"] : List String),
      (IndexTs.translateOne (fun t _ _ => ApiOut.mk [] (ApiResult.success t))
        "inst" () 0 f).2 = Except.ok (id f) := by decide
  refine ⟨h, ?_⟩
  have h2 := (C3_positional_join
    (fun t _ _ => ApiOut.mk [] (ApiResult.success t)) "inst" () 0
    ["para one", "para two"] id h).1
  rw [h2]
  decide

/-- Claim C4: a terminal failure not matching the size/stream pattern is
fatal — `translateOne` propagates the error message unchanged (no retry);
`translateMultiple` never returns a successful joined result while some
fragment failed (success of the aggregate implies success of every
sibling); and a failing sibling makes the aggregate fail as a whole. -/
theorem C4_fatal_propagation {O : Type} (call : Oracle O) (instruction : String)
    (apiOptions : O) :
    (∀ (fuel : Nat) (text msg : String),
      (call text instruction apiOptions).result = ApiResult.error msg →
      matchSizePattern msg = false →
      (IndexTs.translateOne call instruction apiOptions fuel text).2
        = Except.error msg) ∧
    (∀ (fuel : Nat) (fragments : List String) (joined : String),
      (IndexTs.translateMultiple call instruction apiOptions fuel fragments).2
        = Except.ok joined →
      ∀ f ∈ fragments, ∃ r,
        (IndexTs.translateOne call instruction apiOptions fuel f).2
          = Except.ok r) ∧
    (∀ (fuel : Nat) (fragments : List String) (f msg : String),
      f ∈ fragments →
      (IndexTs.translateOne call instruction apiOptions fuel f).2
        = Except.error msg →
      ∃ e, (IndexTs.translateMultiple call instruction apiOptions fuel
        fragments).2 = Except.error e) := by
  refine ⟨?_, ?_, ?_⟩
  · intro fuel text msg herr hpat
    simp [IndexTs.translateOne, herr, hpat]
  · intro fuel fragments joined hok f hf
    have hmem : (IndexTs.translateOne call instruction apiOptions fuel f).2 ∈
        fragments.map
          (Prod.snd ∘ IndexTs.translateOne call instruction apiOptions fuel) :=
      List.mem_map_of_mem _ hf
    simp only [IndexTs.translateMultiple, IndexTs.multipleBody] at hok
    revert hok
    cases hcr : collectResults (fragments.map
        (Prod.snd ∘ IndexTs.translateOne call instruction apiOptions fuel)) with
    | error e => intro hok; simp [hcr] at hok
    | ok rs =>
        intro _
        exact collectResults_ok_mem _ rs hcr _ hmem
  · intro fuel fragments f msg hf herr
    have hmem : Except.error msg ∈
        fragments.map
          (Prod.snd ∘ IndexTs.translateOne call instruction apiOptions fuel) := by
      rw [← herr]
      exact List.mem_map_of_mem _ hf
    obtain ⟨m2, hm2⟩ := collectResults_error_of_mem _ msg hmem
    exact ⟨m2, by simp [IndexTs.translateMultiple, IndexTs.multipleBody, hm2]⟩

/-- Witness for claim C4: the non-matching failure "boom" is propagated by
`translateOne` as an error. -/
theorem C4_fatal_propagation_witness :
    ((fun (_ : String) (_ : String) (_ : Unit) =>
        ApiOut.mk [] (ApiResult.error "boom")) "x" "inst" ()).result
        = ApiResult.error "boom" ∧
      matchSizePattern "boom" = false ∧
      (IndexTs.translateOne
          (fun _ _ _ => ApiOut.mk [] (ApiResult.error "boom")) "inst" () 0
          "x").2 = Except.error "boom" :=
  ⟨rfl, by decide,
    (C4_fatal_propagation
      (fun _ _ _ => ApiOut.mk [] (ApiResult.error "boom")) "inst" ()).1
      0 "x" "boom" rfl (by decide)⟩

/-- Claim C5: `splitStringAtBlankLines text 0` returns either `none` —
exactly when no blank-line boundary exists in `text` — or exactly two
fragments whose rejoining with the removed separator reconstructs `text`
exactly. -/
theorem C5_bisection (text : String) :
    (splitStringAtBlankLines text 0 = none ∧ blankPositions text.data = []) ∨
      (∃ a b : String, splitStringAtBlankLines text 0 = some [a, b] ∧
        a ++ "\n\n" ++ b = text) := by
  by_cases hbp : blankPositions text.data = []
  · left
    constructor
    · simp [splitStringAtBlankLines, hbp]
    · exact hbp
  · right
    cases hnear : nearestTo (text.length / 2) (blankPositions text.data) with
    | none => exact absurd ((nearestTo_eq_none _ _).mp hnear) hbp
    | some k =>
        refine ⟨⟨text.data.take k⟩, ⟨text.data.drop (k + 2)⟩, ?_, ?_⟩
        · simp [splitStringAtBlankLines, hbp, hnear]
        · apply stringDataEq
          have hk := nearestTo_mem _ _ _ hnear
          have := blankPositions_spec text.data k hk
          simpa using this

/-- Claim C6 is contradicted by `src/index.ts`: the first status emitted by
its `translateOne` is the out-of-type `waiting` literal (line 87), not
`pending("")`; the `src/unnamed/part_000` variant emits `pending("")` as the
specification states. -/
theorem C6_first_status {O : Type} (call : Oracle O) (instruction : String)
    (apiOptions : O) (fuel : Nat) (text : String) :
    (IndexTs.translateOne call instruction apiOptions fuel text).1.head?
        = some RuntimeStatus.waiting ∧
      (Part0.translateOne call instruction apiOptions fuel text).1.head?
        = some (RuntimeStatus.pending "") ∧
      RuntimeStatus.waiting ≠ RuntimeStatus.pending "" := by
  refine ⟨?_, ?_, by simp⟩
  · simp [IndexTs.translateOne]
  · simp [Part0.translateOne]

/-- Claim C7: each status update handled inside `translateMultiple` stores
the child status in its positional slot and re-emits a composite status that
is always the `pending` variant, whose `lastToken` is the bracketed,
comma-separated concatenation of the one-line rendering of every slot's
current status in index order; and every status in the update part of the
`translateMultiple` trace is such a composite. -/
theorem C7_composite_status (statuses : List RuntimeStatus) (index : Nat)
    (status : RuntimeStatus) :
    (handleNewStatus statuses index status).1 = statuses.set index status ∧
      (handleNewStatus statuses index status).2
        = RuntimeStatus.pending
            ("[" ++ String.intercalate ", "
              ((statuses.set index status).map
                (fun s => (statusToTextR s).getD "")) ++ "]") ∧
      (∃ tok, (handleNewStatus statuses index status).2
        = RuntimeStatus.pending tok) ∧
      (∀ (ts : List (List RuntimeStatus)) (slots : List RuntimeStatus)
        (i : Nat) (e : RuntimeStatus), e ∈ feedAll slots i ts →
        ∃ s j x, e = (handleNewStatus s j x).2) :=
  ⟨rfl, rfl, ⟨_, rfl⟩, fun ts slots i e he => feedAll_composite ts slots i e he⟩

/-- Witness for claim C7 at a concrete slot table and update. -/
theorem C7_composite_status_witness :
    RuntimeStatus.pending "[]" ∈
        feedAll [RuntimeStatus.pending ""] 0 [[RuntimeStatus.waiting]] ∧
      ∃ s j x, RuntimeStatus.pending "[]" = (handleNewStatus s j x).2 :=
  ⟨by decide,
    (C7_composite_status [] 0 RuntimeStatus.waiting).2.2.2
      [[RuntimeStatus.waiting]] [RuntimeStatus.pending ""] 0
      (RuntimeStatus.pending "[]") (by decide)⟩

/-- Claim C8: `statusToText` is total over the three declared `Status`
variants and never returns the empty string; `pending` with an empty token
renders the waiting glyph, `pending` with a non-empty token renders the
in-progress glyph followed by the token with newlines flattened to spaces,
`done` renders the success glyph, `error` renders the failure glyph followed
by the message; and `pending("")` renders differently from
`pending("x")`. -/
theorem C8_statusToText_total :
    (∀ s : Status, statusToText s ≠ "") ∧
      statusToText (Status.pending "") = "⏳" ∧
      (∀ tok : String, tok ≠ "" →
        statusToText (Status.pending tok) = "⚡ " ++ flattenNewlines tok) ∧
      (∀ t : String, statusToText (Status.done t) = "✅") ∧
      (∀ m : String, statusToText (Status.error m) = "❌ " ++ m) ∧
      statusToText (Status.pending "") ≠ statusToText (Status.pending "x") := by
  refine ⟨?_, rfl, ?_, fun _ => rfl, fun _ => rfl, by decide⟩
  · intro s
    cases s with
    | pending tok =>
        simp only [statusToText]
        by_cases h : tok.length = 0
        · rw [if_pos h]; decide
        · rw [if_neg h]; exact stringAppendNeEmpty (by decide)
    | done t => simp only [statusToText]; decide
    | error m =>
        simp only [statusToText]
        exact stringAppendNeEmpty (by decide)
  · intro tok htok
    simp only [statusToText]
    rw [if_neg (fun h => htok (stringEmptyOfLengthZero h))]

/-- Witness for claim C8 at the non-empty token "x". -/
theorem C8_statusToText_total_witness :
    ("x" : String) ≠ "" ∧
      statusToText (Status.pending "x") = "⚡ " ++ flattenNewlines "x" :=
  ⟨by decide, C8_statusToText_total.2.2.1 "x" (by decide)⟩

/-- Claim C9 is contradicted by `src/index.ts`: its `translateMultiple`
initialises every per-fragment slot with the `waiting` literal, which is not
one of the three declared `Status` variants, so `statusToText` takes no
branch on it (returns `undefined`, embedded as `none`) and the composite
line rendered from fresh slots contains empty renderings (`"[, ]"`); the
`src/unnamed/part_000` variant initialises every slot with a declared
variant. -/
theorem C9_waiting_not_declared :
    RuntimeStatus.waiting ∈ IndexTs.initialStatuses 1 ∧
      isDeclaredStatus RuntimeStatus.waiting = false ∧
      statusToTextR RuntimeStatus.waiting = none ∧
      (handleNewStatus (IndexTs.initialStatuses 2) 0 RuntimeStatus.waiting).2
        = RuntimeStatus.pending "[, ]" ∧
      (∀ s ∈ Part0.initialStatuses 1, isDeclaredStatus s = true) := by
  refine ⟨by decide, rfl, rfl, by decide, by decide⟩

/-- Claim C10: the two orchestrator variants are result-equivalent — for
the same collaborator, instruction, options and fuel, `translateOne` and
`translateMultiple` of `src/index.ts` return exactly the same outcome
(success value or propagated error) as those of `src/unnamed/part_000`;
the two differ only in the statuses emitted along the way. -/
theorem C10_variants_result_equivalent {O : Type} (call : Oracle O)
    (instruction : String) (apiOptions : O) (fuel : Nat) :
    (∀ text, (IndexTs.translateOne call instruction apiOptions fuel text).2
      = (Part0.translateOne call instruction apiOptions fuel text).2) ∧
    (∀ fragments,
      (IndexTs.translateMultiple call instruction apiOptions fuel fragments).2
        = (Part0.translateMultiple call instruction apiOptions fuel
            fragments).2) := by
  refine ⟨translateOne_result_agrees call instruction apiOptions fuel, ?_⟩
  intro fragments
  exact multipleBody_result_congr _ _
    (translateOne_result_agrees call instruction apiOptions fuel) fragments
